import Mathlib

/-!
Verification of the incremental n-gram language-model scorer of
`speechbrain/decoders/language_model.py` (class `LanguageModel` and its
helpers), embedded shallowly: the external kenlm backend is an abstract
record of pure transition functions over an opaque state type `σ`, floats
are modelled as exact rationals, and the float constant `math.log10(math.e)`
is passed to `score` as an explicit parameter `log10_e`.
-/

namespace LanguageModelSpec

/-- Abstract interface of the external kenlm n-gram backend (the `kenlm.Model`
object the scorer consumes).  `base_score s w` and `next_state s w` together
model the C call `BaseScore(s, w, out_state)`: it returns the base-10
log-probability and fills the freshly constructed `out_state` as a pure
function of `(s, w)`.  `contains w` models Python's `w in kenlm_model`;
`empty_state` models `kenlm.State()`; `begin_sentence_write` and
`null_context_write` model `BeginSentenceWrite` / `NullContextWrite`
priming an empty state. -/
structure KenlmModel (σ : Type) where
  empty_state : σ
  begin_sentence_write : σ → σ
  null_context_write : σ → σ
  base_score : σ → String → ℚ
  next_state : σ → String → σ
  contains : String → Bool

/-- Mirrors `class KenlmState`: a plain wrapper around the raw backend state. -/
structure KenlmState (σ : Type) where
  state : σ
deriving DecidableEq

/-- Result of `_prepare_unigram_set`: the retained unigram set together with
the two non-fatal diagnostics the function logs (vocabulary suspiciously
small, vocabulary/model mismatch). -/
structure PrepareResult where
  unigram_set : Finset String
  small_vocab_warning : Bool
  mismatch_warning : Bool
deriving DecidableEq

/-- Mirrors `_prepare_unigram_set(unigrams, kenlm_model)`:
`unigram_set = set(t for t in set(unigrams) if t in kenlm_model)`;
`retained_fraction = 1.0 if len(unigrams) == 0 else len(unigram_set)/len(unigrams)`;
warns when `len(unigrams) < 1000` and when `retained_fraction < 0.1`. -/
def prepare_unigram_set {σ : Type} (unigrams : List String) (kenlm_model : KenlmModel σ) :
    PrepareResult :=
  let uset : Finset String := unigrams.toFinset.filter (fun t => kenlm_model.contains t = true)
  let retained_fraction : ℚ :=
    if unigrams.length = 0 then 1 else (uset.card : ℚ) / (unigrams.length : ℚ)
  { unigram_set := uset
    small_vocab_warning := decide (unigrams.length < 1000)
    mismatch_warning := decide (retained_fraction < 1 / 10) }

/-- Modelled from the pygtrie semantics of `CharTrie.fromkeys(keys).has_node(s) != 0`
(pygtrie is an external dependency, not part of this repository): the trie built
from `keys` has a node at `s` iff `s` is a prefix of some key (a full key
included).  The trie itself is represented by its key set. -/
def hasNode (keys : Finset String) (s : String) : Bool :=
  decide (∃ u ∈ keys, s.data.isPrefixOf u.data = true)

/-- Mirrors `class LanguageModel.__init__`'s resulting attributes: the backend
handle, the retained unigram set, the optional character trie (`None` when no
unigram collection was supplied), and the four configuration scalars. -/
structure LanguageModel (σ : Type) where
  kenlm_model : KenlmModel σ
  unigram_set : Finset String
  char_trie : Option (Finset String)
  alpha : ℚ
  beta : ℚ
  unk_score_offset : ℚ
  score_boundary : Bool

/-- Mirrors `LanguageModel.__init__(kenlm_model, unigrams, alpha, beta,
unk_score_offset, score_boundary)`: with `unigrams is None` the unigram set is
empty and the trie is `None`; otherwise the unigram set is filtered through
`_prepare_unigram_set` and the trie is `CharTrie.fromkeys(unigram_set)`. -/
def LanguageModel.init {σ : Type} (kenlm_model : KenlmModel σ)
    (unigrams : Option (List String)) (alpha beta unk_score_offset : ℚ)
    (score_boundary : Bool) : LanguageModel σ :=
  match unigrams with
  | none =>
    { kenlm_model := kenlm_model, unigram_set := ∅, char_trie := none
      alpha := alpha, beta := beta, unk_score_offset := unk_score_offset
      score_boundary := score_boundary }
  | some u =>
    let uset := (prepare_unigram_set u kenlm_model).unigram_set
    { kenlm_model := kenlm_model, unigram_set := uset, char_trie := some uset
      alpha := alpha, beta := beta, unk_score_offset := unk_score_offset
      score_boundary := score_boundary }

/-- Mirrors `LanguageModel.get_start_state`: an empty backend state primed with
begin-sentence context when `score_boundary` holds, null context otherwise. -/
def LanguageModel.get_start_state {σ : Type} (lm : LanguageModel σ) : KenlmState σ :=
  if lm.score_boundary then
    ⟨lm.kenlm_model.begin_sentence_write lm.kenlm_model.empty_state⟩
  else
    ⟨lm.kenlm_model.null_context_write lm.kenlm_model.empty_state⟩

/-- Mirrors `LanguageModel._get_raw_end_score(start_state)`: the base score of
the end-of-sentence symbol from `start_state` when `score_boundary` holds
(the freshly written out-state is discarded), `0.0` otherwise. -/
def LanguageModel.get_raw_end_score {σ : Type} (lm : LanguageModel σ) (start_state : σ) : ℚ :=
  if lm.score_boundary then lm.kenlm_model.base_score start_state "</s>" else 0

/-- Mirrors `LanguageModel.score_partial_token(partial_token)`:
`is_oov = 1` when the trie is absent or has no node at `partial_token`, else `0`;
`unk_score = unk_score_offset * is_oov`, additionally scaled by
`len(partial_token)/6` when `len(partial_token) > 6`. -/
def LanguageModel.score_partial_token {σ : Type} (lm : LanguageModel σ)
    (partial_token : String) : ℚ :=
  let is_oov : ℚ :=
    match lm.char_trie with
    | none => 1
    | some keys => if hasNode keys partial_token then 0 else 1
  let unk_score := lm.unk_score_offset * is_oov
  if 6 < partial_token.length then
    unk_score * (partial_token.length : ℚ) / 6
  else
    unk_score

/-- The scorer's out-of-vocabulary judgement inside `score_partial_token`:
true when the trie is absent, or present without a node at `partial_token`. -/
def LanguageModel.judged_oov {σ : Type} (lm : LanguageModel σ) (partial_token : String) : Bool :=
  match lm.char_trie with
  | none => true
  | some keys => !hasNode keys partial_token

/-- The dynamically typed `prev_state` argument of `LanguageModel.score`:
either an actual `KenlmState` or a value of some other Python type, recorded
by its type name (all `score` inspects about it is `isinstance`). -/
inductive ScoreInput (σ : Type) where
  | kenlmSt (s : KenlmState σ)
  | other (type_name : String)
deriving DecidableEq

/-- Mirrors `LanguageModel.score(prev_state, word, is_last_word)`.
`log10_e` stands for the float constant `math.log10(math.e)`.  A non-`KenlmState`
argument raises (`AssertionError`), modelled by `Except.error`; otherwise
`BaseScore` yields the base score and the fresh `end_state`, the OOV offset is
added under Python's `A and B or C` grouping `(A ∧ B) ∨ C`, the raw end score
is added when `is_last_word`, and the final combination is
`alpha * lm_score * 1.0 / log10(e) + beta` paired with the unmodified
`end_state`. -/
def LanguageModel.score {σ : Type} (lm : LanguageModel σ) (log10_e : ℚ)
    (prev_state : ScoreInput σ) (word : String) (is_last_word : Bool) :
    Except String (ℚ × KenlmState σ) :=
  match prev_state with
  | .other type_name =>
    .error ("Wrong input state type found. Expected KenlmState, got " ++ type_name)
  | .kenlmSt ps =>
    let end_state : σ := lm.kenlm_model.next_state ps.state word
    let lm_score : ℚ := lm.kenlm_model.base_score ps.state word
    let lm_score : ℚ :=
      if (0 < lm.unigram_set.card ∧ word ∉ lm.unigram_set) ∨
          ¬ lm.kenlm_model.contains word = true then
        lm_score + lm.unk_score_offset
      else
        lm_score
    let lm_score : ℚ :=
      if is_last_word then lm_score + lm.get_raw_end_score end_state else lm_score
    .ok (lm.alpha * lm_score * 1 / log10_e + lm.beta, ⟨end_state⟩)

/-- The backend base log-probability after the OOV and boundary adjustments of
`score` (the spec's `adjusted_base_score`). -/
def LanguageModel.adjusted_base_score {σ : Type} (lm : LanguageModel σ) (ps : σ)
    (word : String) (is_last_word : Bool) : ℚ :=
  lm.kenlm_model.base_score ps word
    + (if (0 < lm.unigram_set.card ∧ word ∉ lm.unigram_set) ∨
          ¬ lm.kenlm_model.contains word = true then lm.unk_score_offset else 0)
    + (if is_last_word then lm.get_raw_end_score (lm.kenlm_model.next_state ps word) else 0)

/-- The score the same backend call would give without the OOV adjustment
(for the spec's OOV penalty monotonicity property): base score, plus the
boundary adjustment when `is_last_word`, combined with the same final formula. -/
def LanguageModel.score_without_oov {σ : Type} (lm : LanguageModel σ) (log10_e : ℚ)
    (ps : σ) (word : String) (is_last_word : Bool) : ℚ :=
  let lm_score : ℚ := lm.kenlm_model.base_score ps word
  let lm_score : ℚ :=
    if is_last_word then
      lm_score + lm.get_raw_end_score (lm.kenlm_model.next_state ps word)
    else
      lm_score
  lm.alpha * lm_score * 1 / log10_e + lm.beta

/-- The backend lineage of a scorer instance: the raw states reachable from its
start state by backend transitions.  This is the notion the spec's state
contract check quantifies over. -/
inductive InLineage {σ : Type} (lm : LanguageModel σ) : σ → Prop where
  | start : InLineage lm lm.get_start_state.state
  | step (s : σ) (w : String) : InLineage lm s →
      InLineage lm (lm.kenlm_model.next_state s w)

/-- A backend stub over the unit state type: every transition returns base
score `-2.0`, and the backend vocabulary is empty (the spec's end-to-end
scenario stub). -/
def stubConstModel : KenlmModel Unit :=
  { empty_state := ()
    begin_sentence_write := fun _ => ()
    null_context_write := fun _ => ()
    base_score := fun _ _ => -2
    next_state := fun _ _ => ()
    contains := fun _ => false }

/-- The scorer of the spec's end-to-end scenario: stub backend, no unigrams,
`alpha = 0.5`, `beta = 1.5`, `unk_score_offset = -10.0`, `score_boundary = False`. -/
def lmStub : LanguageModel Unit :=
  LanguageModel.init stubConstModel none (1 / 2) (3 / 2) (-10) false

/-- Claim C1: every completed `score` call returns
`alpha * adjusted_base_score / log10(e) + beta` where `adjusted_base_score` is
the backend base log-probability after the OOV and boundary adjustments; and in
the spec's end-to-end scenario (stub backend returning `-2.0` for every
transition with no known words, `alpha = 0.5`, `beta = 1.5`,
`unk_score_offset = -10.0`, `score_boundary = false`, empty vocabulary),
`score(start, "cat", false)` returns exactly `0.5 * (-12.0) / log10(e) + 1.5`. -/
theorem score_final_combination :
    (∀ (σ : Type) (lm : LanguageModel σ) (log10_e : ℚ) (s : KenlmState σ)
        (word : String) (is_last_word : Bool),
      lm.score log10_e (.kenlmSt s) word is_last_word =
        .ok (lm.alpha * lm.adjusted_base_score s.state word is_last_word / log10_e + lm.beta,
             ⟨lm.kenlm_model.next_state s.state word⟩)) ∧
    (∀ log10_e : ℚ,
      (lmStub.score log10_e (.kenlmSt lmStub.get_start_state) "cat" false).map Prod.fst =
        .ok ((1 / 2 : ℚ) * (-12) / log10_e + 3 / 2)) := by
  constructor
  · intro σ lm log10_e s word is_last_word
    simp only [LanguageModel.score, LanguageModel.adjusted_base_score, Except.ok.injEq,
      Prod.mk.injEq]
    refine ⟨?_, trivial⟩
    split <;> split <;> ring
  · intro log10_e
    simp only [lmStub, stubConstModel, LanguageModel.init, LanguageModel.score,
      LanguageModel.get_start_state, Except.map, Finset.card_empty, lt_irrefl,
      false_and, Bool.false_eq_true, not_false_iff, or_true, if_true, if_false,
      Bool.false_eq_true, ite_false, Except.ok.injEq]
    ring

/-- Claim C3: for every state and word, `score(s, w, true)` and
`score(s, w, false)` return the same `new_state`, namely the unmodified
post-transition state — the boundary adjustment only changes the returned
score, never the propagated state. -/
theorem score_boundary_state_invariant :
    ∀ (σ : Type) (lm : LanguageModel σ) (log10_e : ℚ) (s : KenlmState σ) (w : String),
      (lm.score log10_e (.kenlmSt s) w true).map Prod.snd =
        (lm.score log10_e (.kenlmSt s) w false).map Prod.snd ∧
      (lm.score log10_e (.kenlmSt s) w false).map Prod.snd =
        .ok ⟨lm.kenlm_model.next_state s.state w⟩ := by
  intro σ lm log10_e s w
  constructor <;> simp [LanguageModel.score, Except.map]

/-- Claim C6: `score` is a deterministic function of its arguments (two calls
with identical inputs return identical results), and `get_start_state` is a
pure function of the configuration, selecting begin-sentence versus
null-context priming of an empty backend state by `score_boundary`. -/
theorem score_determinism :
    ∀ (σ : Type) (lm : LanguageModel σ) (log10_e : ℚ) (inp : ScoreInput σ) (w : String),
      lm.score log10_e inp w false = lm.score log10_e inp w false ∧
      lm.get_start_state =
        ⟨if lm.score_boundary then
            lm.kenlm_model.begin_sentence_write lm.kenlm_model.empty_state
          else lm.kenlm_model.null_context_write lm.kenlm_model.empty_state⟩ := by
  intro σ lm log10_e inp w
  refine ⟨rfl, ?_⟩
  rw [LanguageModel.get_start_state]
  split <;> rfl

/-- A backend stub over the unit state type knowing exactly the word `"the"`. -/
def vocabStubModel : KenlmModel Unit :=
  { stubConstModel with contains := fun w => w == "the" }

/-- A scorer built from `vocabStubModel` with the unigram collection `["the"]`:
its vocabulary set is the singleton `{"the"}`. -/
def lmVocab : LanguageModel Unit :=
  LanguageModel.init vocabStubModel (some ["the"]) (1 / 2) (3 / 2) (-10) false

/-- A backend stub over the unit state type knowing exactly the word
`"abcdefgh"`. -/
def wordStubModel : KenlmModel Unit :=
  { stubConstModel with contains := fun w => w == "abcdefgh" }

/-- A scorer built from `wordStubModel` with the unigram collection
`["abcdefgh"]`: its trie holds the single key `"abcdefgh"`. -/
def lmTrie : LanguageModel Unit :=
  LanguageModel.init wordStubModel (some ["abcdefgh"]) (1 / 2) (3 / 2) (-10) true

/-- Claim C2: the `unk_score_offset` is added to the backend base score exactly
once, precisely when (the vocabulary is non-empty and the word is not a member)
or the word is unknown to the backend; and under `0 ≤ alpha`,
`unk_score_offset ≤ 0` and a positive `log10(e)` constant, for a word outside a
non-empty vocabulary the returned score is at most the score the same backend
call would give without the OOV adjustment. -/
theorem score_oov_adjustment :
    ∀ (σ : Type) (lm : LanguageModel σ) (log10_e : ℚ) (s : KenlmState σ)
        (word : String) (is_last_word : Bool),
      ((lm.score log10_e (.kenlmSt s) word is_last_word).map Prod.fst =
        .ok (lm.alpha * (lm.kenlm_model.base_score s.state word
              + (if (0 < lm.unigram_set.card ∧ word ∉ lm.unigram_set) ∨
                    ¬ lm.kenlm_model.contains word = true
                 then lm.unk_score_offset else 0)
              + (if is_last_word then
                   lm.get_raw_end_score (lm.kenlm_model.next_state s.state word) else 0))
            * 1 / log10_e + lm.beta)) ∧
      (0 ≤ lm.alpha → lm.unk_score_offset ≤ 0 → 0 < log10_e →
        lm.unigram_set.Nonempty → word ∉ lm.unigram_set →
        ∀ q : ℚ × KenlmState σ, lm.score log10_e (.kenlmSt s) word is_last_word = .ok q →
          q.1 ≤ lm.score_without_oov log10_e s.state word is_last_word) := by
  intro σ lm log10_e s word is_last_word
  constructor
  · simp only [LanguageModel.score, Except.map, Except.ok.injEq]
    split <;> split <;> ring
  · intro hα hoff hL hne hnot q hq
    have hc : (0 < lm.unigram_set.card ∧ word ∉ lm.unigram_set) ∨
        ¬ lm.kenlm_model.contains word = true :=
      Or.inl ⟨Finset.card_pos.mpr hne, hnot⟩
    have key : ∀ x : ℚ,
        lm.alpha * (x + lm.unk_score_offset) * 1 / log10_e + lm.beta ≤
          lm.alpha * x * 1 / log10_e + lm.beta := by
      intro x
      have h1 : lm.alpha * (x + lm.unk_score_offset) ≤ lm.alpha * x :=
        mul_le_mul_of_nonneg_left (by linarith) hα
      have h2 : lm.alpha * (x + lm.unk_score_offset) / log10_e ≤
          lm.alpha * x / log10_e := div_le_div_of_nonneg_right h1 hL.le
      rw [mul_one, mul_one]
      linarith
    simp only [LanguageModel.score, if_pos hc, Except.ok.injEq] at hq
    rw [← hq]
    simp only [LanguageModel.score_without_oov]
    split
    · have h := key (lm.kenlm_model.base_score s.state word +
        lm.get_raw_end_score (lm.kenlm_model.next_state s.state word))
      have e : lm.alpha * (lm.kenlm_model.base_score s.state word + lm.unk_score_offset +
            lm.get_raw_end_score (lm.kenlm_model.next_state s.state word)) * 1 / log10_e +
              lm.beta =
          lm.alpha * (lm.kenlm_model.base_score s.state word +
            lm.get_raw_end_score (lm.kenlm_model.next_state s.state word) +
            lm.unk_score_offset) * 1 / log10_e + lm.beta := by ring
      rw [e]
      exact h
    · exact key _

/-- Witness for C2: the scorer `lmVocab` with vocabulary `{"the"}`, the OOV
word `"cat"`, `log10_e = 1`: the returned score `-9/2` is at most the score
`1/2` of the same call without OOV adjustment. -/
theorem score_oov_adjustment_witness :
    ((-9 / 2 : ℚ), (⟨()⟩ : KenlmState Unit)).1 ≤ lmVocab.score_without_oov 1 () "cat" false :=
  (score_oov_adjustment Unit lmVocab 1 ⟨()⟩ "cat" false).2
    (by norm_num [lmVocab, LanguageModel.init])
    (by norm_num [lmVocab, LanguageModel.init])
    (by norm_num)
    (by decide)
    (by decide)
    (-9 / 2, ⟨()⟩)
    (by
      norm_num [lmVocab, LanguageModel.init, vocabStubModel, stubConstModel,
        prepare_unigram_set, LanguageModel.score, Finset.filter_singleton,
        Finset.singleton_nonempty]
      rw [if_neg (show ¬ ("cat" = "the") by decide)]
      norm_num)

/-- Claim C7: `hasNode keys s` (pygtrie's `has_node(s) != 0` on the trie built
from `keys`) holds iff some retained unigram has `s` as a prefix, `s` itself as
a full word included; consequently, for `a` a strict prefix of `b`,
`hasNode keys b` implies `hasNode keys a`. -/
theorem has_node_spec :
    ∀ (keys : Finset String) (s : String),
      (hasNode keys s = true ↔ ∃ u ∈ keys, s.data <+: u.data) ∧
      (∀ a b : String, a.data <+: b.data → a ≠ b →
        hasNode keys b = true → hasNode keys a = true) := by
  intro keys s
  constructor
  · simp [hasNode, List.isPrefixOf_iff_prefix]
  · intro a b hab hne hb
    simp only [hasNode, decide_eq_true_eq, List.isPrefixOf_iff_prefix] at hb ⊢
    obtain ⟨u, hu, hpre⟩ := hb
    exact ⟨u, hu, hab.trans hpre⟩

/-- Witness for C7: over the key set `{"abcd"}`, `"ab"` is a strict prefix of
`"abc"`, the trie has a node at `"abc"`, and prefix monotonicity yields the
node at `"ab"`. -/
theorem has_node_spec_witness : hasNode {"abcd"} "ab" = true :=
  (has_node_spec {"abcd"} "ab").2 "ab" "abc" (by decide) (by decide) (by decide)

/-- Claim C10: a partial token at which the trie has a node (a prefix of some
retained unigram) scores exactly `0.0` regardless of its length: the
length-greater-than-6 scaling multiplies a zero penalty. -/
theorem known_node_zero_score :
    ∀ (σ : Type) (lm : LanguageModel σ) (keys : Finset String) (p : String),
      lm.char_trie = some keys → hasNode keys p = true →
      lm.score_partial_token p = 0 := by
  intro σ lm keys p htrie hnode
  simp [LanguageModel.score_partial_token, htrie, hnode]

/-- Witness for C10: in `lmTrie` the length-7 token `"abcdefg"` is a prefix of
the retained unigram `"abcdefgh"`, and its partial-token score is `0` even
though its length exceeds 6. -/
theorem known_node_zero_score_witness : lmTrie.score_partial_token "abcdefg" = 0 :=
  known_node_zero_score Unit lmTrie {"abcdefgh"} "abcdefg" (by decide) (by decide)

/-- A backend stub over history-list states: a transition pushes the word,
begin-sentence priming yields `["<s>"]`, null-context priming the empty
history. -/
def histModel : KenlmModel (List String) :=
  { empty_state := []
    begin_sentence_write := fun _ => ["<s>"]
    null_context_write := fun _ => []
    base_score := fun _ _ => -2
    next_state := fun s w => w :: s
    contains := fun _ => false }

/-- A boundary-scoring scorer over `histModel`: every state of its backend
lineage is a non-empty history. -/
def lmHist : LanguageModel (List String) :=
  LanguageModel.init histModel none (1 / 2) (3 / 2) (-10) true

/-- Every state in `lmHist`'s backend lineage is a non-empty history: the
start state is `["<s>"]` and transitions only push words. -/
theorem lmHist_lineage_ne_nil : ∀ s, InLineage lmHist s → s ≠ [] := by
  intro s h
  induction h with
  | start =>
    simp [lmHist, LanguageModel.init, histModel, LanguageModel.get_start_state]
  | step s w _ _ =>
    simp [lmHist, LanguageModel.init, histModel]

/-- Counterexample to claim C4 as stated: the raw state `[]` was never produced
by `lmHist`'s backend lineage, yet `score` accepts it without error — the code
checks only that the argument is a `KenlmState` instance, not which scorer
produced it. -/
theorem score_lineage_check_cex :
    ¬ (∀ input : ScoreInput (List String),
        (∃ e, lmHist.score 1 input "cat" false = .error e) ↔
        ¬ ∃ ks : KenlmState (List String),
            input = .kenlmSt ks ∧ InLineage lmHist ks.state) := by
  intro h
  have h2 := (h (.kenlmSt ⟨[]⟩)).mpr ?_
  · obtain ⟨e, he⟩ := h2
    simp [LanguageModel.score] at he
  · rintro ⟨ks, hks, hlin⟩
    obtain rfl : (⟨[]⟩ : KenlmState (List String)) = ks := by
      cases hks
      rfl
    exact lmHist_lineage_ne_nil [] hlin rfl

/-- Claim C4 amended: `score` raises its typed error exactly on arguments that
are not `KenlmState` instances; for every `KenlmState` — whichever scorer
produced it — scoring completes with a result, and there are no other failure
modes. -/
theorem score_type_check_amended :
    ∀ (σ : Type) (lm : LanguageModel σ) (log10_e : ℚ) (w : String) (last : Bool),
      (∀ type_name : String,
        ∃ e, lm.score log10_e (.other type_name) w last = .error e) ∧
      (∀ ks : KenlmState σ,
        ∃ v, lm.score log10_e (.kenlmSt ks) w last = .ok v) := by
  intro σ lm log10_e w last
  exact ⟨fun type_name => ⟨_, rfl⟩, fun ks => ⟨_, rfl⟩⟩

/-- A scorer with `unk_score_offset = 0` and no trie: every token is judged
out-of-vocabulary but carries a zero penalty. -/
def lmZeroOffset : LanguageModel Unit :=
  LanguageModel.init stubConstModel none (1 / 2) (3 / 2) 0 false

/-- Counterexample to claim C8 as stated: with `unk_score_offset = 0` the OOV
tokens of lengths 7 and 8 both score `0`, so the magnitude does not strictly
increase with the length. -/
theorem partial_token_scaling_cex :
    lmZeroOffset.judged_oov "aaaaaaa" = true ∧
    lmZeroOffset.judged_oov "aaaaaaaa" = true ∧
    6 < ("aaaaaaa" : String).length ∧
    ("aaaaaaa" : String).length < ("aaaaaaaa" : String).length ∧
    ¬ |lmZeroOffset.score_partial_token "aaaaaaa"| <
        |lmZeroOffset.score_partial_token "aaaaaaaa"| := by
  refine ⟨by decide, by decide, by decide, by decide, ?_⟩
  norm_num [lmZeroOffset, LanguageModel.init, stubConstModel,
    LanguageModel.score_partial_token]

/-- Claim C8 amended: every OOV-judged partial token longer than 6 scores
`unk_score_offset * len / 6`, and for a fixed nonzero `unk_score_offset` the
magnitude of the returned value strictly increases with the length across
OOV-judged tokens longer than 6 (with `unk_score_offset = 0` all magnitudes
are zero). -/
theorem partial_token_length_scaling_amended :
    ∀ (σ : Type) (lm : LanguageModel σ) (p q : String),
      (lm.judged_oov p = true → 6 < p.length →
        lm.score_partial_token p = lm.unk_score_offset * (p.length : ℚ) / 6) ∧
      (lm.unk_score_offset ≠ 0 → lm.judged_oov p = true → lm.judged_oov q = true →
        6 < p.length → p.length < q.length →
        |lm.score_partial_token p| < |lm.score_partial_token q|) := by
  intro σ lm p q
  have formula : ∀ r : String, lm.judged_oov r = true → 6 < r.length →
      lm.score_partial_token r = lm.unk_score_offset * (r.length : ℚ) / 6 := by
    intro r hoov hlen
    unfold LanguageModel.judged_oov at hoov
    unfold LanguageModel.score_partial_token
    cases htrie : lm.char_trie with
    | none => simp [htrie, hlen]
    | some keys =>
      rw [htrie] at hoov
      simp only [Bool.not_eq_true'] at hoov
      simp [htrie, hoov, hlen]
  constructor
  · exact formula p
  · intro hne hp hq h6p hlt
    have h6q : 6 < q.length := h6p.trans hlt
    rw [formula p hp h6p, formula q hq h6q]
    have habs : ∀ n : ℕ, |lm.unk_score_offset * (n : ℚ) / 6| =
        |lm.unk_score_offset| * (n : ℚ) / 6 := by
      intro n
      rw [abs_div, abs_mul, Nat.abs_cast]
      norm_num
    rw [habs p.length, habs q.length]
    have hpos : 0 < |lm.unk_score_offset| := abs_pos.mpr hne
    have hcast : (p.length : ℚ) < (q.length : ℚ) := by exact_mod_cast hlt
    gcongr

/-- Witness for the amended C8: in `lmStub` (offset `-10`, no trie) the OOV
token of length 7 scores `-10 * 7 / 6`, and the magnitude at length 8 is
strictly larger than at length 7. -/
theorem partial_token_length_scaling_witness :
    lmStub.score_partial_token "aaaaaaa" =
      lmStub.unk_score_offset * (("aaaaaaa" : String).length : ℚ) / 6 ∧
    |lmStub.score_partial_token "aaaaaaa"| < |lmStub.score_partial_token "aaaaaaaa"| :=
  ⟨(partial_token_length_scaling_amended Unit lmStub "aaaaaaa" "aaaaaaaa").1
      (by decide) (by decide),
   (partial_token_length_scaling_amended Unit lmStub "aaaaaaa" "aaaaaaaa").2
      (by norm_num [lmStub, LanguageModel.init]) (by decide) (by decide)
      (by decide) (by decide)⟩

/-- A scorer built from the constant stub backend (which knows no words) with
the unigram collection `["x"]`: filtering retains nothing, but a trie is still
built. -/
def lmEmptyFiltered : LanguageModel Unit :=
  LanguageModel.init stubConstModel (some ["x"]) (1 / 2) (3 / 2) (-10) false

/-- Counterexample to claim C9 as stated: `lmEmptyFiltered` has an empty
vocabulary set, yet its PrefixIndex is built — an empty trie, not `None`; the
trie is absent only when no unigram collection is supplied at all. -/
theorem char_trie_absence_cex :
    lmEmptyFiltered.unigram_set = ∅ ∧ lmEmptyFiltered.char_trie ≠ none := by
  exact ⟨by decide, by decide⟩

/-- Claim C9 amended: the PrefixIndex is absent iff no unigram collection was
supplied (when one is supplied, a trie over the retained set is built, possibly
empty); whenever the PrefixIndex is absent — and likewise when it is built but
empty — `score_partial_token` treats every partial token as unknown
(`is_oov = 1`), returning `unk_score_offset`, scaled by `len / 6` when the
length exceeds 6. -/
theorem char_trie_absence_amended :
    (∀ (σ : Type) (m : KenlmModel σ) (a b o : ℚ) (sb : Bool),
      (LanguageModel.init m none a b o sb).char_trie = none) ∧
    (∀ (σ : Type) (m : KenlmModel σ) (u : List String) (a b o : ℚ) (sb : Bool),
      (LanguageModel.init m (some u) a b o sb).char_trie =
        some (prepare_unigram_set u m).unigram_set) ∧
    (∀ (σ : Type) (lm : LanguageModel σ), lm.char_trie = none →
      ∀ p : String, lm.score_partial_token p =
        if 6 < p.length then lm.unk_score_offset * (p.length : ℚ) / 6
        else lm.unk_score_offset) ∧
    (∀ (σ : Type) (lm : LanguageModel σ), lm.char_trie = some ∅ →
      ∀ p : String, lm.score_partial_token p =
        if 6 < p.length then lm.unk_score_offset * (p.length : ℚ) / 6
        else lm.unk_score_offset) := by
  refine ⟨fun σ m a b o sb => rfl, fun σ m u a b o sb => rfl, ?_, ?_⟩
  · intro σ lm htrie p
    simp [LanguageModel.score_partial_token, htrie]
  · intro σ lm htrie p
    simp [LanguageModel.score_partial_token, htrie, hasNode]

/-- Witness for the amended C9: `lmStub` has no trie, and its partial-token
score at the length-8 token `"abcdefgh"` is the scaled unknown penalty. -/
theorem char_trie_absence_witness :
    lmStub.score_partial_token "abcdefgh" =
      if 6 < ("abcdefgh" : String).length then
        lmStub.unk_score_offset * (("abcdefgh" : String).length : ℚ) / 6
      else lmStub.unk_score_offset :=
  char_trie_absence_amended.2.2.1 Unit lmStub (by decide) "abcdefgh"

/-- The i-th synthetic vocabulary word: `'a'` repeated `i` times (the words
are pairwise distinct, distinguished by their lengths). -/
def aWord (i : ℕ) : String := String.mk (List.replicate i 'a')

/-- A raw vocabulary of 10000 distinct words `aWord 0, …, aWord 9999`. -/
def rawVocab : List String := (List.range 10000).map aWord

/-- A stub backend knowing exactly the words shorter than 500 characters —
among `rawVocab`, exactly the 500 words `aWord 0, …, aWord 499`. -/
def stubModel500 : KenlmModel Unit :=
  { stubConstModel with contains := fun w => decide (w.length < 500) }

/-- Claim C5: the vocabulary filter retains exactly the offered words whose
backend membership query succeeds (no false positives, false negatives only
for words never offered); and on a raw vocabulary of 10000 words of which the
backend knows 500, the retained set has size 500 and the vocabulary/model
mismatch diagnostic fires since `500/10000 = 0.05 < 0.1`. -/
theorem prepare_unigram_set_spec :
    (∀ (σ : Type) (m : KenlmModel σ) (u : List String) (w : String),
      w ∈ (prepare_unigram_set u m).unigram_set ↔ w ∈ u ∧ m.contains w = true) ∧
    (prepare_unigram_set rawVocab stubModel500).unigram_set.card = 500 ∧
    (prepare_unigram_set rawVocab stubModel500).mismatch_warning = true := by
  have hinj : Function.Injective aWord := by
    intro i j h
    have := congrArg String.length h
    simpa [aWord, String.length] using this
  have h1 : rawVocab.toFinset = (Finset.range 10000).image aWord := by
    ext x
    simp [rawVocab]
  have h3 : (Finset.range 10000).filter
      (fun i => stubModel500.contains (aWord i) = true) = Finset.range 500 := by
    ext i
    simp only [stubModel500, stubConstModel, Finset.mem_filter, Finset.mem_range,
      decide_eq_true_eq, aWord, String.length, List.length_replicate]
    omega
  have hcard : (rawVocab.toFinset.filter
      (fun t => stubModel500.contains t = true)).card = 500 := by
    rw [h1, Finset.filter_image, h3, Finset.card_image_of_injective _ hinj,
      Finset.card_range]
  have hlen : rawVocab.length = 10000 := by simp [rawVocab]
  refine ⟨?_, ?_, ?_⟩
  · intro σ m u w
    simp [prepare_unigram_set]
  · exact hcard
  · simp only [prepare_unigram_set, hlen, hcard]
    norm_num

end LanguageModelSpec
